import Mathlib

/-!
# iostl: stream operators for the STL containers (`iostream.h`)

A shallow embedding of `iostream.h`.

* An output stream `std::ostream` is the text written to it so far, a `String`;
  `os << x` appends the rendering of `x`.
* A container is the `List` of its elements in traversal order.  A
  `const_iterator` into a container of `n` elements is an index `0 .. n`;
  `cbegin()` is `0` and `cend()` is `n`.
* Cursor operations that C++ leaves undefined (`*it` or `it++` at `cend()`,
  `it--` at `cbegin()`, `top()`/`front()`/`back()` of an empty adapter) are
  faults of the embedding: the run stops with the `Fault` that names them.
* `THRESHOLD` is a preprocessor constant; it is a parameter `T : Nat` of every
  function that uses it.  The counter `int current` never exceeds
  `min (size, 2 * THRESHOLD)`, so the embedding is exact whenever
  `2 * THRESHOLD` is representable as an `int`.
* The `while` loops carry a fuel bound; running out of it is the fault
  `Fault.fuel`, and the theorems show that a bound above the container size is
  never reached.
* An input stream `std::istream` is the list of characters not yet read and its
  `failbit`.  The extraction `is >> x` of the element type belongs to the
  standard library: the input operators take it as a parameter, and
  `extractInt` is its instance for `int`.
* A `std::map` is the list of its entries in traversal order, the keys strictly
  increasing; `mapInsert` is the standard library's `insert` on it.
* `sendListByIndex` is not in `iostream.h`: it is the variant proposed in the
  design notes of the specification, defined to be compared with `sendList`.
-/

namespace Iostl

/-! ## Faults and cursors -/

/-- The ways a run can stop without a result. -/
inductive Fault where
  /-- `*it` with `it == cend()`. -/
  | derefEnd
  /-- `it++` with `it == cend()`. -/
  | incEnd
  /-- `it--` with `it == cbegin()`. -/
  | decBegin
  /-- `top()`, `front()` or `back()` of an empty container adapter. -/
  | emptyAccess
  /-- The loop was cut by the fuel bound of the embedding. -/
  | fuel
  deriving DecidableEq, Repr

/-- Ghost record of what the formatter did with its cursor. -/
inductive Event where
  /-- The elision branch ran and left the cursor on this index. -/
  | jump (dst : Nat)
  /-- The element at this index was rendered (`os << *it`). -/
  | deref (i : Nat)
  deriving DecidableEq, Repr

/-- `*it` on a container `xs`: undefined at `cend()`. -/
def deref {α : Type} (xs : List α) (it : Nat) : Except Fault α :=
  match xs.get? it with
  | some x => .ok x
  | none => .error .derefEnd

/-- `it++` in a container of `n` elements: undefined at `cend()`. -/
def inc (n : Nat) (it : Nat) : Except Fault Nat :=
  if it < n then .ok (it + 1) else .error .incEnd

/-- `it--`: undefined at `cbegin()`. -/
def dec (it : Nat) : Except Fault Nat :=
  if 0 < it then .ok (it - 1) else .error .decBegin

/-- `for (int i = 0; i < THRESHOLD; ++i) it--;` : `it--` repeated `k` times. -/
def retreat : Nat → Nat → Except Fault Nat
  | 0, it => .ok it
  | k + 1, it => do
    let it ← dec it
    retreat k it

/-! ## The truncating body formatter -/

/-- Local state of `sendList` / `sendMap`; `log` is ghost. -/
structure LoopState where
  /-- The stream `os`: the text written so far. -/
  os : String
  /-- The cursor `it`. -/
  it : Nat
  /-- The flag `may_truncate`. -/
  may_truncate : Bool
  /-- The counter `current`. -/
  current : Nat
  /-- Ghost: the cursor events so far, oldest first. -/
  log : List Event
  deriving DecidableEq, Repr

/-- One pass through the body of the `while` loop of `sendList`
(lines 68-84). -/
def sendListBody {α : Type} (T : Nat) (render : α → String) (xs : List α)
    (st : LoopState) : Except Fault LoopState := do
  -- if (may_truncate && current >= THRESHOLD) { ... }
  let st ←
    if st.may_truncate && decide (st.current ≥ T) then do
      -- it = container.cend(); for (...) it--;
      let it ← retreat T xs.length
      -- may_truncate = false; os << "..." << ",";
      pure { st with it := it, may_truncate := false, os := st.os ++ "..." ++ ",",
                     log := st.log ++ [Event.jump it] }
    else pure st
  -- os << *it;
  let x ← deref xs st.it
  let os := st.os ++ render x
  let log := st.log ++ [Event.deref st.it]
  -- it++;
  let it ← inc xs.length st.it
  -- if (it != container.cend()) os << ",";
  let os := if it ≠ xs.length then os ++ "," else os
  -- it--;
  let it ← dec it
  -- current++; it++;
  let it ← inc xs.length it
  pure { os := os, it := it, may_truncate := st.may_truncate, current := st.current + 1,
         log := log }

/-- The `while (it != container.cend())` loop of `sendList`, cut after `fuel`
tests of its condition. -/
def sendListLoop {α : Type} (T : Nat) (render : α → String) (xs : List α) :
    Nat → LoopState → Except Fault LoopState
  | 0, _ => .error .fuel
  | fuel + 1, st =>
    if st.it ≠ xs.length then do
      let st ← sendListBody T render xs st
      sendListLoop T render xs fuel st
    else .ok st

/-- The whole of `sendList` (lines 60-88), returning its final local state. -/
def sendListRun {α : Type} (fuel T : Nat) (render : α → String) (xs : List α)
    (os : String) : Except Fault LoopState := do
  -- os << "{"; it = cbegin(); may_truncate = (size() > THRESHOLD * 2); current = 0;
  let st : LoopState :=
    { os := os ++ "\x7b", it := 0, may_truncate := decide (xs.length > T * 2), current := 0,
      log := [] }
  let st ← sendListLoop T render xs fuel st
  -- os << "}";
  pure { st with os := st.os ++ "\x7d" }

/-- The stream after `sendList(os, container, it)`. -/
def sendList {α : Type} (fuel T : Nat) (render : α → String) (xs : List α)
    (os : String) : Except Fault String :=
  (sendListRun fuel T render xs os).map LoopState.os

/-- One pass through the body of the `while` loop of `sendMap`
(lines 97-113): as `sendListBody`, the element written as
`it->first`, `":"`, `it->second`. -/
def sendMapBody {κ ν : Type} (T : Nat) (renderK : κ → String) (renderV : ν → String)
    (m : List (κ × ν)) (st : LoopState) : Except Fault LoopState := do
  -- if (may_truncate && current >= THRESHOLD) { ... }
  let st ←
    if st.may_truncate && decide (st.current ≥ T) then do
      -- it = container.cend(); for (...) it--;
      let it ← retreat T m.length
      -- may_truncate = false; os << "..." << ",";
      pure { st with it := it, may_truncate := false, os := st.os ++ "..." ++ ",",
                     log := st.log ++ [Event.jump it] }
    else pure st
  -- os << it->first << ":" << it->second;
  let e ← deref m st.it
  let os := st.os ++ renderK e.1 ++ ":" ++ renderV e.2
  let log := st.log ++ [Event.deref st.it]
  -- it++;
  let it ← inc m.length st.it
  -- if (it != container.cend()) os << ",";
  let os := if it ≠ m.length then os ++ "," else os
  -- it--;
  let it ← dec it
  -- current++; it++;
  let it ← inc m.length it
  pure { os := os, it := it, may_truncate := st.may_truncate, current := st.current + 1,
         log := log }

/-- The `while (it != container.cend())` loop of `sendMap`, cut after `fuel`
tests of its condition. -/
def sendMapLoop {κ ν : Type} (T : Nat) (renderK : κ → String) (renderV : ν → String)
    (m : List (κ × ν)) : Nat → LoopState → Except Fault LoopState
  | 0, _ => .error .fuel
  | fuel + 1, st =>
    if st.it ≠ m.length then do
      let st ← sendMapBody T renderK renderV m st
      sendMapLoop T renderK renderV m fuel st
    else .ok st

/-- The whole of `sendMap` (lines 90-117), returning its final local state.
The container is the list of its entries in traversal order. -/
def sendMapRun {κ ν : Type} (fuel T : Nat) (renderK : κ → String) (renderV : ν → String)
    (m : List (κ × ν)) (os : String) : Except Fault LoopState := do
  -- os << "{"; it = cbegin(); may_truncate = (size() > THRESHOLD * 2); current = 0;
  let st : LoopState :=
    { os := os ++ "\x7b", it := 0, may_truncate := decide (m.length > T * 2), current := 0,
      log := [] }
  let st ← sendMapLoop T renderK renderV m fuel st
  -- os << "}";
  pure { st with os := st.os ++ "\x7d" }

/-- The stream after `sendMap(os, container, it)`. -/
def sendMap {κ ν : Type} (fuel T : Nat) (renderK : κ → String) (renderV : ν → String)
    (m : List (κ × ν)) (os : String) : Except Fault String :=
  (sendMapRun fuel T renderK renderV m os).map LoopState.os

/-! ## The header and the output operators -/

/-- `sendHeader(os, container, type)` (lines 54-58).  `addr` is the text that
`os << &container` writes, `xs.length` is `container.size()`, written in
decimal. -/
def sendHeader {α : Type} (os : String) (addr : String) (xs : List α) (type : String) :
    String :=
  os ++ "(" ++ type ++ ":" ++ addr ++ ")[" ++ toString xs.length ++ "]"

/-- `s.top()` of a `std::stack`, the elements listed oldest first: the element
pushed last; undefined on an empty stack. -/
def top {α : Type} (s : List α) : Except Fault α :=
  match s.getLast? with
  | some x => .ok x
  | none => .error .emptyAccess

/-- `q.front()` of a `std::queue`, the elements listed oldest first: the
oldest element; undefined on an empty queue. -/
def front {α : Type} (q : List α) : Except Fault α :=
  match q.head? with
  | some x => .ok x
  | none => .error .emptyAccess

/-- `q.back()` of a `std::queue`, the elements listed oldest first: the
newest element; undefined on an empty queue. -/
def back {α : Type} (q : List α) : Except Fault α :=
  match q.getLast? with
  | some x => .ok x
  | none => .error .emptyAccess

/-- `operator<<(std::ostream&, const std::stack<T>&)` (lines 123-128). -/
def outStack {α : Type} (addr : String) (render : α → String) (s : List α) (os : String) :
    Except Fault String := do
  -- sendHeader(os, s, "stack");
  let os := sendHeader os addr s "stack"
  -- os << "{top:" << s.top() << "}";
  let t ← top s
  pure (os ++ "\x7btop:" ++ render t ++ "\x7d")

/-- `operator<<(std::ostream&, const std::queue<T>&)` (lines 130-135). -/
def outQueue {α : Type} (addr : String) (render : α → String) (q : List α) (os : String) :
    Except Fault String := do
  -- sendHeader(os, q, "queue");
  let os := sendHeader os addr q "queue"
  -- os << "{front:" << q.front() << ",back:" << q.back() << "}";
  let f ← front q
  let b ← back q
  pure (os ++ "\x7bfront:" ++ render f ++ ",back:" ++ render b ++ "\x7d")

/-- `operator<<(std::ostream&, const std::list<T>&)` (lines 145-152). -/
def outList {α : Type} (fuel T : Nat) (addr : String) (render : α → String) (l : List α)
    (os : String) : Except Fault String :=
  -- sendHeader(os, l, "list"); sendList(os, l, it);
  sendList fuel T render l (sendHeader os addr l "list")

/-- `operator<<(std::ostream&, const std::deque<T>&)` (lines 154-161). -/
def outDeque {α : Type} (fuel T : Nat) (addr : String) (render : α → String) (dq : List α)
    (os : String) : Except Fault String :=
  -- sendHeader(os, dq, "deque"); sendList(os, dq, it);
  sendList fuel T render dq (sendHeader os addr dq "deque")

/-- `operator<<(std::ostream&, const std::vector<T>&)` (lines 163-170). -/
def outVector {α : Type} (fuel T : Nat) (addr : String) (render : α → String) (v : List α)
    (os : String) : Except Fault String :=
  -- sendHeader(os, v, "vector"); sendList(os, v, it);
  sendList fuel T render v (sendHeader os addr v "vector")

/-- `operator<<(std::ostream&, const std::set<T>&)` (lines 172-179); the set is
the list of its elements in traversal order. -/
def outSet {α : Type} (fuel T : Nat) (addr : String) (render : α → String) (set : List α)
    (os : String) : Except Fault String :=
  -- sendHeader(os, set, "set"); sendList(os, set, it);
  sendList fuel T render set (sendHeader os addr set "set")

/-- `operator<<(std::ostream&, const std::multiset<T>&)` (lines 181-188); the
multiset is the list of its elements in traversal order. -/
def outMultiset {α : Type} (fuel T : Nat) (addr : String) (render : α → String)
    (ms : List α) (os : String) : Except Fault String :=
  -- sendHeader(os, ms, "multiset"); sendList(os, ms, it);
  sendList fuel T render ms (sendHeader os addr ms "multiset")

/-- `operator<<(std::ostream&, const std::map<K,T>&)` (lines 190-197). -/
def outMap {κ ν : Type} (fuel T : Nat) (addr : String) (renderK : κ → String)
    (renderV : ν → String) (map : List (κ × ν)) (os : String) : Except Fault String :=
  -- sendHeader(os, map, "map"); sendMap(os, map, it);
  sendMap fuel T renderK renderV map (sendHeader os addr map "map")

/-- `operator<<(std::ostream&, const std::multimap<K,T>&)` (lines 199-206). -/
def outMultimap {κ ν : Type} (fuel T : Nat) (addr : String) (renderK : κ → String)
    (renderV : ν → String) (mm : List (κ × ν)) (os : String) : Except Fault String :=
  -- sendHeader(os, mm, "multimap"); sendMap(os, mm, it);
  sendMap fuel T renderK renderV mm (sendHeader os addr mm "multimap")

/-! ## The input operators -/

/-- An input stream `std::istream`: the characters not yet read and the
`failbit` of its state. -/
structure IStream where
  /-- The characters not yet read. -/
  buf : List Char
  /-- The stream is in the failed state. -/
  failbit : Bool
  deriving DecidableEq, Repr

/-- `operator>>(std::istream&, std::deque<T>&)` (lines 242-248).  `extract` is
`is >> new_item` for the element type: from the stream and the variable before
to the stream and the variable after; `init` is `T()`. -/
def inDeque {α : Type} (extract : IStream → α → IStream × α) (init : α) (is : IStream)
    (dq : List α) : IStream × List α :=
  -- T new_item = T();
  let new_item := init
  -- is >> new_item;
  let r := extract is new_item
  -- dq.push_back(new_item); return is;
  (r.1, dq ++ [r.2])

/-- `operator>>(std::istream&, std::vector<T>&)` (lines 250-256). -/
def inVector {α : Type} (extract : IStream → α → IStream × α) (init : α) (is : IStream)
    (v : List α) : IStream × List α :=
  -- T new_item = T();
  let new_item := init
  -- is >> new_item;
  let r := extract is new_item
  -- v.push_back(new_item); return is;
  (r.1, v ++ [r.2])

/-- `operator>>(std::istream&, std::list<T>&)` (lines 258-264). -/
def inList {α : Type} (extract : IStream → α → IStream × α) (init : α) (is : IStream)
    (l : List α) : IStream × List α :=
  -- T new_item = T();
  let new_item := init
  -- is >> new_item;
  let r := extract is new_item
  -- l.push_back(new_item); return is;
  (r.1, l ++ [r.2])

/-- The white space of the "C" locale, skipped before a formatted read. -/
def isSpace (c : Char) : Bool :=
  c = ' ' || c = '\t' || c = '\n' || c = '\x0b' || c = '\x0c' || c = '\r'

/-- The value of a run of decimal digits. -/
def digitsVal (ds : List Char) : Nat :=
  ds.foldl (fun acc c => 10 * acc + (c.toNat - '0'.toNat)) 0

/-- The largest `int`. -/
def INT_MAX : Int := 2 ^ 31 - 1

/-- The smallest `int`. -/
def INT_MIN : Int := -(2 ^ 31)

/-- The sign of an integer field: whether it is negative, and the characters
after the sign. -/
def takeSign : List Char → Bool × List Char
  | '-' :: r => (true, r)
  | '+' :: r => (false, r)
  | cs => (false, cs)

/-- The standard library's `is >> n` for `int n` (decimal, white space
skipped): a stream already failed is left alone; at the end of the input the
read fails and `n` keeps its value; a field without digits fails and stores
`0`; a value out of range fails and stores the nearest `int`; otherwise the
digits are consumed and their value stored. -/
def extractInt (is : IStream) (n : Int) : IStream × Int :=
  if is.failbit then (is, n)
  else
    match is.buf.dropWhile isSpace with
    | [] => ({ buf := [], failbit := true }, n)
    | c :: cs =>
      let sign := takeSign (c :: cs)
      let ds := sign.2.takeWhile Char.isDigit
      let rest := sign.2.dropWhile Char.isDigit
      if ds = [] then ({ buf := rest, failbit := true }, 0)
      else
        let val : Int := if sign.1 then -(digitsVal ds : Int) else (digitsVal ds : Int)
        if val > INT_MAX then ({ buf := rest, failbit := true }, INT_MAX)
        else if val < INT_MIN then ({ buf := rest, failbit := true }, INT_MIN)
        else ({ buf := rest, failbit := false }, val)

/-- The standard library's `m.insert(make_pair(k, v))` of a `std::map`, the
map being the list of its entries in traversal order (keys strictly
increasing): the descent by key comparisons puts a new entry at its place in
the order, and leaves the map alone when it meets an entry with the key `k`. -/
def mapInsert {κ ν : Type} [LinearOrder κ] (k : κ) (v : ν) : List (κ × ν) → List (κ × ν)
  | [] => [(k, v)]
  | e :: rest =>
    if k < e.1 then (k, v) :: e :: rest
    else if k = e.1 then e :: rest
    else e :: mapInsert k v rest

/-- `operator>>(std::istream&, std::map<K,T>&)` (lines 282-290).  `extractK`
and `extractV` are `is >> new_key` and `is >> new_item` for the key and the
mapped type, `initK` and `initV` are `K()` and `T()`. -/
def inMap {κ ν : Type} [LinearOrder κ] (extractK : IStream → κ → IStream × κ)
    (extractV : IStream → ν → IStream × ν) (initK : κ) (initV : ν) (is : IStream)
    (m : List (κ × ν)) : IStream × List (κ × ν) :=
  -- T new_item = T(); K new_key = K();
  let new_item := initV
  let new_key := initK
  -- is >> new_key;
  let rk := extractK is new_key
  -- is >> new_item;
  let rv := extractV rk.1 new_item
  -- m.insert(make_pair(new_key,new_item)); return is;
  (rv.1, mapInsert rk.2 rv.2 m)

/-! ## The separator decided by the running index

The design note of the specification proposes to decide the separator from
the counter `current` instead of peeking at the next cursor position.  The
definitions below follow the algorithm of the specification (section 4.2) with
that one step replaced, to be compared with `sendList`. -/

/-- One pass of the loop body in the variant of the specification: the elision
branch and the rendering as in step 3a and 3b; a comma is written iff
`current + 1 != size` (`current` is not the index of the last element); then
the cursor advances and `current` is incremented. -/
def sendListByIndexBody {α : Type} (T : Nat) (render : α → String) (xs : List α)
    (st : LoopState) : Except Fault LoopState := do
  -- step 3a
  let st ←
    if st.may_truncate && decide (st.current ≥ T) then do
      let it ← retreat T xs.length
      pure { st with it := it, may_truncate := false, os := st.os ++ "..." ++ ",",
                     log := st.log ++ [Event.jump it] }
    else pure st
  -- step 3b
  let x ← deref xs st.it
  let os := st.os ++ render x
  let log := st.log ++ [Event.deref st.it]
  -- step 3c, by the running index
  let os := if st.current + 1 ≠ xs.length then os ++ "," else os
  -- step 3d
  let it ← inc xs.length st.it
  pure { os := os, it := it, may_truncate := st.may_truncate, current := st.current + 1,
         log := log }

/-- The loop of the variant, cut after `fuel` tests of its condition. -/
def sendListByIndexLoop {α : Type} (T : Nat) (render : α → String) (xs : List α) :
    Nat → LoopState → Except Fault LoopState
  | 0, _ => .error .fuel
  | fuel + 1, st =>
    if st.it ≠ xs.length then do
      let st ← sendListByIndexBody T render xs st
      sendListByIndexLoop T render xs fuel st
    else .ok st

/-- The stream after the variant of `sendList` that decides the separator by
the running index (steps 1 to 4 of the algorithm). -/
def sendListByIndex {α : Type} (fuel T : Nat) (render : α → String) (xs : List α)
    (os : String) : Except Fault String := do
  let st : LoopState :=
    { os := os ++ "\x7b", it := 0, may_truncate := decide (xs.length > T * 2), current := 0,
      log := [] }
  let st ← sendListByIndexLoop T render xs fuel st
  pure (st.os ++ "\x7d")

/-! ## Auxiliary definitions of the proofs -/

/-- The indices rendered, oldest first, in a cursor log. -/
def rendered : List Event → List Nat
  | [] => []
  | Event.deref i :: l => i :: rendered l
  | Event.jump _ :: l => rendered l

/-- The landing indices of the runs of the elision branch in a cursor log. -/
def jumps : List Event → List Nat
  | [] => []
  | Event.jump j :: l => j :: jumps l
  | Event.deref _ :: l => jumps l

/-- Every string of `l` followed by a comma. -/
def commaEach : List String → String
  | [] => ""
  | a :: l => a ++ "," ++ commaEach l

/-! ## Auxiliary facts -/

theorem intercalate_go_append (s : String) (l : List String) (acc a : String) :
    String.intercalate.go (acc ++ s ++ a) s l = acc ++ s ++ String.intercalate.go a s l := by
  induction l generalizing acc a with
  | nil => simp [String.intercalate.go]
  | cons b l ih =>
    simp only [String.intercalate.go]
    rw [ih (acc ++ s ++ a) b, ih a b]
    simp [String.append_assoc]

theorem intercalate_cons_cons (s a b : String) (l : List String) :
    s.intercalate (a :: b :: l) = a ++ s ++ s.intercalate (b :: l) := by
  simp only [String.intercalate, String.intercalate.go]
  exact intercalate_go_append s l a b

theorem retreat_eq (k it : Nat) (h : k ≤ it) : retreat k it = .ok (it - k) := by
  induction k generalizing it with
  | zero => simp [retreat]
  | succ k ih =>
    have h0 : 0 < it := by omega
    have h1 : k ≤ it - 1 := by omega
    simp only [retreat, dec, h0, if_true]
    show retreat k (it - 1) = _
    rw [ih (it - 1) h1]
    congr 1
    omega


theorem sendListBody_plain {α : Type} (T : Nat) (render : α → String) (xs : List α)
    (st : LoopState) (x : α)
    (hc : (st.may_truncate && decide (st.current ≥ T)) = false)
    (hx : xs.get? st.it = some x) :
    sendListBody T render xs st = .ok
      { os := st.os ++ render x ++ (if st.it + 1 ≠ xs.length then "," else ""),
        it := st.it + 1, may_truncate := st.may_truncate, current := st.current + 1,
        log := st.log ++ [Event.deref st.it] } := by
  have hlt : st.it < xs.length := by
    rcases Nat.lt_or_ge st.it xs.length with h | h
    · exact h
    · rw [List.get?_eq_none.mpr h] at hx; cases hx
  unfold sendListBody
  rw [hc]
  simp only [Bool.false_eq_true, if_false, pure, Except.pure, bind, Except.bind, deref, hx, inc,
    hlt, if_true, dec, Nat.succ_pos, Nat.add_sub_cancel]
  by_cases h : st.it + 1 = xs.length
  · simp [h]
  · simp [h]

theorem sendListBody_jump {α : Type} (T : Nat) (render : α → String) (xs : List α)
    (st : LoopState) (hm : st.may_truncate = true) (hc : T ≤ st.current)
    (hT : T ≤ xs.length) :
    sendListBody T render xs st = sendListBody T render xs
      { st with it := xs.length - T, may_truncate := false, os := st.os ++ "..." ++ ",",
                log := st.log ++ [Event.jump (xs.length - T)] } := by
  unfold sendListBody
  simp [hm, hc, retreat_eq T xs.length hT, bind, Except.bind, pure, Except.pure]


theorem intercalate_cons_sep (a : String) (l : List String) :
    ",".intercalate (a :: l) = a ++ (if l ≠ [] then "," else "") ++ ",".intercalate l := by
  cases l with
  | nil => simp [String.intercalate, String.intercalate.go]
  | cons b l => simp [intercalate_cons_cons]

theorem commaEach_eq (l : List String) (h : l ≠ []) :
    commaEach l = ",".intercalate l ++ "," := by
  induction l with
  | nil => exact absurd rfl h
  | cons a l ih =>
    cases l with
    | nil => simp [commaEach, String.intercalate, String.intercalate.go]
    | cons b l =>
      rw [commaEach, ih (by simp), intercalate_cons_cons]
      simp [String.append_assoc]

theorem sendListLoop_plain {α : Type} (T : Nat) (render : α → String) (xs : List α) :
    ∀ (k fuel : Nat) (st : LoopState), st.may_truncate = false → st.it + k = xs.length →
      k < fuel →
      sendListLoop T render xs fuel st = .ok
        { os := st.os ++ ",".intercalate ((xs.drop st.it).map render),
          it := xs.length, may_truncate := false, current := st.current + k,
          log := st.log ++ (List.range' st.it k).map Event.deref } := by
  intro k
  induction k with
  | zero =>
    intro fuel st hm hit hf
    obtain ⟨f, rfl⟩ : ∃ f, fuel = f + 1 := ⟨fuel - 1, by omega⟩
    have hit' : st.it = xs.length := by omega
    cases st
    simp_all [sendListLoop, String.intercalate]
  | succ k ih =>
    intro fuel st hm hit hf
    obtain ⟨f, rfl⟩ : ∃ f, fuel = f + 1 := ⟨fuel - 1, by omega⟩
    have hlt : st.it < xs.length := by omega
    have hne : st.it ≠ xs.length := by omega
    have hx : xs.get? st.it = some (xs.get ⟨st.it, hlt⟩) := List.get?_eq_get hlt
    have hc : (st.may_truncate && decide (st.current ≥ T)) = false := by simp [hm]
    rw [sendListLoop, if_pos hne, sendListBody_plain T render xs st _ hc hx]
    show sendListLoop T render xs f _ = _
    refine Eq.trans (ih f _ hm (by simp; omega) (by omega)) ?_
    have hd : xs.drop st.it = xs.get ⟨st.it, hlt⟩ :: xs.drop (st.it + 1) :=
      List.drop_eq_getElem_cons hlt
    have hsep : (if st.it + 1 ≠ xs.length then "," else "")
        = (if List.map render (xs.drop (st.it + 1)) ≠ [] then "," else "") := by
      by_cases h : st.it + 1 = xs.length
      · simp [h]
      · have h3 : st.it + 1 < xs.length := by omega
        simp [h, h3]
    congr 1
    simp only [LoopState.mk.injEq, true_and]
    refine ⟨?_, ?_, ?_⟩
    · rw [hd, List.map_cons, intercalate_cons_sep, hsep]
      simp only [String.append_assoc]
    · omega
    · rw [List.range'_succ]
      simp

theorem sendListLoop_head {α : Type} (T : Nat) (render : α → String) (xs : List α)
    (hT : 1 ≤ T) (hn : 2 * T < xs.length) :
    ∀ (k fuel : Nat) (st : LoopState), st.may_truncate = true → st.current = st.it →
      st.it + k = T → k + T < fuel →
      sendListLoop T render xs fuel st = .ok
        { os := st.os ++ commaEach (((xs.take T).drop st.it).map render) ++ "...,"
                  ++ ",".intercalate ((xs.drop (xs.length - T)).map render),
          it := xs.length, may_truncate := false, current := st.current + k + T,
          log := st.log ++ (List.range' st.it k).map Event.deref
                  ++ [Event.jump (xs.length - T)]
                  ++ (List.range' (xs.length - T) T).map Event.deref } := by
  intro k
  induction k with
  | zero =>
    intro fuel st hm hcur hit hf
    obtain ⟨f, rfl⟩ : ∃ f, fuel = f + 1 := ⟨fuel - 1, by omega⟩
    have hne : st.it ≠ xs.length := by omega
    have hjump := sendListBody_jump T render xs st hm (by omega) (by omega)
    have hloop : sendListLoop T render xs (f + 1) st = sendListLoop T render xs (f + 1)
        { st with it := xs.length - T, may_truncate := false, os := st.os ++ "..." ++ ",",
                  log := st.log ++ [Event.jump (xs.length - T)] } := by
      have hne2 : xs.length - T ≠ xs.length := by omega
      rw [sendListLoop, sendListLoop, if_pos hne, if_pos hne2, hjump]
    rw [hloop]
    refine Eq.trans (sendListLoop_plain T render xs T (f + 1) _ rfl (by simp; omega)
      (by omega)) ?_
    have hd : (xs.take T).drop st.it = [] := by
      apply List.drop_eq_nil_of_le
      simp; omega
    congr 1
    simp only [LoopState.mk.injEq, true_and, hd, List.map_nil, commaEach, List.range'_zero,
      List.append_nil, and_true]
    refine ⟨?_, by omega⟩
    simp only [String.append_assoc, String.append_empty]
    rfl
  | succ k ih =>
    intro fuel st hm hcur hit hf
    obtain ⟨f, rfl⟩ : ∃ f, fuel = f + 1 := ⟨fuel - 1, by omega⟩
    have hlt : st.it < xs.length := by omega
    have hne : st.it ≠ xs.length := by omega
    have hx : xs.get? st.it = some (xs.get ⟨st.it, hlt⟩) := List.get?_eq_get hlt
    have hc : (st.may_truncate && decide (st.current ≥ T)) = false := by
      simp [hm]; omega
    rw [sendListLoop, if_pos hne, sendListBody_plain T render xs st _ hc hx]
    refine Eq.trans (ih f _ hm (by simp; omega) (by simp; omega) (by omega)) ?_
    have hlt2 : st.it < (xs.take T).length := by simp; omega
    have hd : (xs.take T).drop st.it = xs.get ⟨st.it, hlt⟩ :: (xs.take T).drop (st.it + 1) := by
      rw [List.drop_eq_getElem_cons hlt2]
      simp
    have hsep : st.it + 1 ≠ xs.length := by omega
    congr 1
    simp only [LoopState.mk.injEq, true_and]
    refine ⟨?_, ?_, ?_⟩
    · rw [hd, List.map_cons, commaEach, if_pos hsep]
      simp only [String.append_assoc]
    · omega
    · rw [List.range'_succ]
      simp


theorem sendListRun_all {α : Type} (fuel T : Nat) (render : α → String) (xs : List α)
    (os : String) (hn : xs.length ≤ 2 * T) (hf : xs.length < fuel) :
    sendListRun fuel T render xs os = .ok
      { os := os ++ "\x7b" ++ ",".intercalate (xs.map render) ++ "\x7d", it := xs.length,
        may_truncate := false, current := xs.length,
        log := (List.range xs.length).map Event.deref } := by
  have hm : decide (xs.length > T * 2) = false := by simp; omega
  unfold sendListRun
  simp only [hm, bind, Except.bind, pure, Except.pure]
  rw [sendListLoop_plain T render xs xs.length fuel _ rfl (by simp) hf]
  simp [List.range_eq_range']

theorem sendListRun_elided {α : Type} (fuel T : Nat) (render : α → String) (xs : List α)
    (os : String) (hT : 1 ≤ T) (hn : 2 * T < xs.length) (hf : 2 * T < fuel) :
    sendListRun fuel T render xs os = .ok
      { os := os ++ "\x7b" ++ ",".intercalate ((xs.take T).map render) ++ ",...,"
                ++ ",".intercalate ((xs.drop (xs.length - T)).map render) ++ "\x7d",
        it := xs.length, may_truncate := false, current := 2 * T,
        log := (List.range T).map Event.deref ++ [Event.jump (xs.length - T)]
                ++ (List.range' (xs.length - T) T).map Event.deref } := by
  have hm : decide (xs.length > T * 2) = true := by simp; omega
  have hne : (xs.take T).map render ≠ [] := by
    intro h
    have hlen : ((xs.take T).map render).length = T := by
      rw [List.length_map, List.length_take]
      omega
    rw [h, List.length_nil] at hlen
    omega
  unfold sendListRun
  simp only [hm, bind, Except.bind, pure, Except.pure]
  rw [sendListLoop_head T render xs hT hn T fuel _ rfl rfl (by simp) (by omega)]
  simp only [List.drop_zero, commaEach_eq _ hne, List.range_eq_range', List.nil_append,
    Nat.zero_add, Except.ok.injEq, LoopState.mk.injEq, true_and, and_true]
  refine ⟨?_, by omega⟩
  have hs : ("," : String) ++ "...," = ",...," := by decide
  simp only [String.append_assoc, hs]

theorem deref_injective : Function.Injective Event.deref := by
  intro a b h
  cases h
  rfl

theorem elided_log_nodup (T n : Nat) (hn : 2 * T < n) :
    ((List.range T).map Event.deref ++ [Event.jump (n - T)]
      ++ (List.range' (n - T) T).map Event.deref).Nodup := by
  have h1 : ((List.range T).map Event.deref).Nodup :=
    (List.nodup_range T).map deref_injective
  have h2 : ((List.range' (n - T) T).map Event.deref).Nodup :=
    (List.nodup_range' (n - T) T).map deref_injective
  rw [List.nodup_append]
  refine ⟨?_, h2, ?_⟩
  · rw [List.nodup_append]
    refine ⟨h1, List.nodup_singleton _, ?_⟩
    intro e he1 he2
    simp at he1 he2
    obtain ⟨a, _, rfl⟩ := he1
    cases he2
  · intro e he1 he2
    simp only [List.mem_append, List.mem_map, List.mem_range, List.mem_singleton,
      List.mem_range'_1] at he1 he2
    obtain ⟨b, hb, rfl⟩ := he2
    rcases he1 with ⟨a, ha, hab⟩ | hj
    · cases hab
      omega
    · cases hj

theorem sendMapBody_eq {κ ν : Type} (T : Nat) (renderK : κ → String) (renderV : ν → String)
    (m : List (κ × ν)) (st : LoopState) :
    sendMapBody T renderK renderV m st
      = sendListBody T (fun e => renderK e.1 ++ ":" ++ renderV e.2) m st := by
  simp only [sendMapBody, sendListBody, String.append_assoc]

theorem sendMapLoop_eq {κ ν : Type} (T : Nat) (renderK : κ → String) (renderV : ν → String)
    (m : List (κ × ν)) (fuel : Nat) (st : LoopState) :
    sendMapLoop T renderK renderV m fuel st
      = sendListLoop T (fun e => renderK e.1 ++ ":" ++ renderV e.2) m fuel st := by
  induction fuel generalizing st with
  | zero => rfl
  | succ f ih =>
    simp only [sendMapLoop, sendListLoop, sendMapBody_eq]
    by_cases h : st.it = m.length
    · simp [h]
    · simp only [ne_eq, h, not_false_eq_true, if_true]
      cases sendListBody T (fun e => renderK e.1 ++ ":" ++ renderV e.2) m st with
      | error e => rfl
      | ok st1 => exact ih st1

theorem sendMapRun_eq {κ ν : Type} (fuel T : Nat) (renderK : κ → String)
    (renderV : ν → String) (m : List (κ × ν)) (os : String) :
    sendMapRun fuel T renderK renderV m os
      = sendListRun fuel T (fun e => renderK e.1 ++ ":" ++ renderV e.2) m os := by
  simp only [sendMapRun, sendListRun, sendMapLoop_eq]

theorem sendMap_eq {κ ν : Type} (fuel T : Nat) (renderK : κ → String)
    (renderV : ν → String) (m : List (κ × ν)) (os : String) :
    sendMap fuel T renderK renderV m os
      = sendList fuel T (fun e => renderK e.1 ++ ":" ++ renderV e.2) m os := by
  simp only [sendMap, sendList, sendMapRun_eq]

theorem sendList_total {α : Type} (fuel T : Nat) (render : α → String) (xs : List α)
    (hT : 1 ≤ T) (hf : xs.length < fuel) :
    ∃ body, ∀ os, sendList fuel T render xs os = .ok (os ++ body) := by
  rcases Nat.lt_or_ge (2 * T) xs.length with hn | hn
  · refine ⟨"\x7b" ++ ",".intercalate ((xs.take T).map render) ++ ",...,"
      ++ ",".intercalate ((xs.drop (xs.length - T)).map render) ++ "\x7d", fun os => ?_⟩
    rw [sendList, sendListRun_elided fuel T render xs os hT hn (by omega)]
    simp only [Except.map, String.append_assoc]
  · refine ⟨"\x7b" ++ ",".intercalate (xs.map render) ++ "\x7d", fun os => ?_⟩
    rw [sendList, sendListRun_all fuel T render xs os hn hf]
    simp only [Except.map, String.append_assoc]

theorem sendListRun_threshold_zero {α : Type} (fuel : Nat) (render : α → String) (x : α)
    (xs : List α) (os : String) :
    sendListRun (fuel + 1) 0 render (x :: xs) os = .error .derefEnd := by
  simp [sendListRun, sendListLoop, sendListBody, retreat, deref, bind, Except.bind, pure,
    Except.pure]

theorem sendListBody_prefix {α : Type} (T : Nat) (render : α → String) (xs : List α)
    (p : String) (st : LoopState) :
    sendListBody T render xs { st with os := p ++ st.os }
      = (sendListBody T render xs st).map (fun s => { s with os := p ++ s.os }) := by
  unfold sendListBody
  simp only [bind, Except.bind, pure, Except.pure]
  by_cases hc : (st.may_truncate && decide (st.current ≥ T)) = true
  · simp only [hc, if_true]
    cases retreat T xs.length with
    | error e => rfl
    | ok j =>
      simp only []
      cases deref xs j with
      | error e => rfl
      | ok x =>
        simp only []
        cases hi : inc xs.length j with
        | error e => rfl
        | ok j1 =>
          simp only []
          cases dec j1 with
          | error e => rfl
          | ok j2 =>
            simp only []
            cases inc xs.length j2 with
            | error e => rfl
            | ok j3 =>
              by_cases h : j1 = xs.length <;> simp [h, Except.map, String.append_assoc]
  · simp only [hc, if_false]
    cases deref xs st.it with
    | error e => rfl
    | ok x =>
      simp only []
      cases hi : inc xs.length st.it with
      | error e => rfl
      | ok j1 =>
        simp only []
        cases dec j1 with
        | error e => rfl
        | ok j2 =>
          simp only []
          cases inc xs.length j2 with
          | error e => rfl
          | ok j3 =>
            by_cases h : j1 = xs.length <;> simp [h, Except.map, String.append_assoc]

theorem sendListLoop_prefix {α : Type} (T : Nat) (render : α → String) (xs : List α)
    (p : String) (fuel : Nat) (st : LoopState) :
    sendListLoop T render xs fuel { st with os := p ++ st.os }
      = (sendListLoop T render xs fuel st).map (fun s => { s with os := p ++ s.os }) := by
  induction fuel generalizing st with
  | zero => rfl
  | succ f ih =>
    simp only [sendListLoop, sendListBody_prefix]
    by_cases h : st.it = xs.length
    · simp [h, Except.map]
    · simp only [ne_eq, h, not_false_eq_true, if_true, bind, Except.bind]
      cases sendListBody T render xs st with
      | error e => rfl
      | ok st1 => exact ih st1

theorem sendList_prefix {α : Type} (fuel T : Nat) (render : α → String) (xs : List α)
    (os : String) :
    sendList fuel T render xs os = (sendList fuel T render xs "").map (fun body => os ++ body) := by
  have h := sendListLoop_prefix T render xs os fuel
    { os := "\x7b", it := 0, may_truncate := decide (xs.length > T * 2), current := 0, log := [] }
  simp only [sendList, sendListRun, bind, Except.bind, pure, Except.pure, String.empty_append]
  simp only [] at h
  rw [h]
  cases sendListLoop T render xs fuel
    { os := "\x7b", it := 0, may_truncate := decide (xs.length > T * 2), current := 0,
      log := [] } with
  | error e => rfl
  | ok st => simp [Except.map, String.append_assoc]

theorem extractInt_no_digits (is : IStream) (n : Int)
    (h : (takeSign (is.buf.dropWhile isSpace)).2.takeWhile Char.isDigit = []) :
    (extractInt is n).1.failbit = true ∧ (extractInt is n).2 = n ∨
      (extractInt is n).1.failbit = true ∧ (extractInt is n).2 = 0 := by
  unfold extractInt
  by_cases hf : is.failbit = true
  · left
    simp [hf]
  · simp only [hf, Bool.false_eq_true, if_false]
    cases hb : is.buf.dropWhile isSpace with
    | nil => left; simp
    | cons c cs =>
      right
      rw [hb] at h
      simp [h]

theorem rendered_append (l1 l2 : List Event) :
    rendered (l1 ++ l2) = rendered l1 ++ rendered l2 := by
  induction l1 with
  | nil => rfl
  | cons e l ih => cases e <;> simp [rendered, ih]

theorem jumps_append (l1 l2 : List Event) : jumps (l1 ++ l2) = jumps l1 ++ jumps l2 := by
  induction l1 with
  | nil => rfl
  | cons e l ih => cases e <;> simp [jumps, ih]

theorem rendered_map_deref (l : List Nat) : rendered (l.map Event.deref) = l := by
  induction l with
  | nil => rfl
  | cons a l ih => simp [rendered, ih]

theorem jumps_map_deref (l : List Nat) : jumps (l.map Event.deref) = [] := by
  induction l with
  | nil => rfl
  | cons a l ih => simp [jumps, ih]

theorem rendered_elided (T j : Nat) :
    rendered ((List.range T).map Event.deref ++ [Event.jump j]
      ++ (List.range' j T).map Event.deref) = List.range T ++ List.range' j T := by
  simp [rendered_append, rendered_map_deref, rendered]

theorem jumps_elided (T j : Nat) :
    jumps ((List.range T).map Event.deref ++ [Event.jump j]
      ++ (List.range' j T).map Event.deref) = [j] := by
  simp [jumps_append, jumps_map_deref, jumps]

theorem sendList_agree {α : Type} (fuel T : Nat) (render : α → String) (xs ys : List α)
    (os : String) (hT : 1 ≤ T) (hx : 2 * T < xs.length) (hy : 2 * T < ys.length)
    (hhead : xs.take T = ys.take T)
    (htail : xs.drop (xs.length - T) = ys.drop (ys.length - T)) (hf : 2 * T < fuel) :
    ∃ body, sendList fuel T render xs os = .ok (os ++ body)
      ∧ sendList fuel T render ys os = .ok (os ++ body) := by
  refine ⟨"\x7b" ++ ",".intercalate ((xs.take T).map render) ++ ",...,"
      ++ ",".intercalate ((xs.drop (xs.length - T)).map render) ++ "\x7d", ?_, ?_⟩
  · rw [sendList, sendListRun_elided fuel T render xs os hT hx hf]
    simp only [Except.map, String.append_assoc]
  · rw [sendList, sendListRun_elided fuel T render ys os hT hy hf, hhead, htail]
    simp only [Except.map, String.append_assoc]

theorem cursor_ops_in_range {α : Type} (xs : List α) (i : Nat) (hi : i < xs.length) :
    (∃ x, deref xs i = .ok x) ∧ inc xs.length i = .ok (i + 1) ∧ i + 1 ≤ xs.length
      ∧ dec (i + 1) = .ok i := by
  refine ⟨⟨xs.get ⟨i, hi⟩, ?_⟩, ?_, hi, ?_⟩
  · unfold deref
    rw [List.get?_eq_get hi]
  · simp [inc, hi]
  · simp [dec]

theorem sendListByIndexBody_plain {α : Type} (T : Nat) (render : α → String) (xs : List α)
    (st : LoopState) (x : α)
    (hc : (st.may_truncate && decide (st.current ≥ T)) = false)
    (hx : xs.get? st.it = some x) :
    sendListByIndexBody T render xs st = .ok
      { os := st.os ++ render x ++ (if st.current + 1 ≠ xs.length then "," else ""),
        it := st.it + 1, may_truncate := st.may_truncate, current := st.current + 1,
        log := st.log ++ [Event.deref st.it] } := by
  have hlt : st.it < xs.length := by
    rcases Nat.lt_or_ge st.it xs.length with h | h
    · exact h
    · rw [List.get?_eq_none.mpr h] at hx; cases hx
  unfold sendListByIndexBody
  rw [hc]
  simp only [Bool.false_eq_true, if_false, pure, Except.pure, bind, Except.bind, deref, hx, inc,
    hlt, if_true]
  by_cases h : st.current + 1 = xs.length
  · simp [h]
  · simp [h]

theorem sendListByIndexLoop_eq {α : Type} (T : Nat) (render : α → String) (xs : List α) :
    ∀ (k fuel : Nat) (st : LoopState), st.may_truncate = false → st.current = st.it →
      st.it + k = xs.length → k < fuel →
      sendListByIndexLoop T render xs fuel st = sendListLoop T render xs fuel st := by
  intro k
  induction k with
  | zero =>
    intro fuel st _ _ hit hf
    obtain ⟨f, rfl⟩ : ∃ f, fuel = f + 1 := ⟨fuel - 1, by omega⟩
    have hit2 : st.it = xs.length := by omega
    simp [sendListByIndexLoop, sendListLoop, hit2]
  | succ k ih =>
    intro fuel st hm hcur hit hf
    obtain ⟨f, rfl⟩ : ∃ f, fuel = f + 1 := ⟨fuel - 1, by omega⟩
    have hlt : st.it < xs.length := by omega
    have hne : st.it ≠ xs.length := by omega
    have hx : xs.get? st.it = some (xs.get ⟨st.it, hlt⟩) := List.get?_eq_get hlt
    have hc : (st.may_truncate && decide (st.current ≥ T)) = false := by simp [hm]
    rw [sendListByIndexLoop, sendListLoop, if_pos hne, if_pos hne,
      sendListByIndexBody_plain T render xs st _ hc hx, sendListBody_plain T render xs st _ hc hx,
      hcur]
    exact ih f _ hm rfl (by simp; omega) (by omega)

theorem mem_keys_mapInsert {κ ν : Type} [LinearOrder κ] (k : κ) (v : ν) (m : List (κ × ν))
    (a : κ) (ha : a ∈ (mapInsert k v m).map Prod.fst) : a = k ∨ a ∈ m.map Prod.fst := by
  induction m with
  | nil =>
    simp [mapInsert] at ha
    exact Or.inl ha
  | cons e rest ih =>
    unfold mapInsert at ha
    split_ifs at ha with h1 h2
    · simp only [List.map_cons, List.mem_cons] at ha ⊢
      exact ha
    · exact Or.inr ha
    · simp only [List.map_cons, List.mem_cons] at ha ⊢
      rcases ha with ha | ha
      · exact Or.inr (Or.inl ha)
      · rcases ih ha with h | h
        · exact Or.inl h
        · exact Or.inr (Or.inr h)

theorem mapInsert_perm {κ ν : Type} [LinearOrder κ] (k : κ) (v : ν) (m : List (κ × ν))
    (hk : k ∉ m.map Prod.fst) : (mapInsert k v m).Perm ((k, v) :: m) := by
  induction m with
  | nil => exact List.Perm.refl _
  | cons e rest ih =>
    simp only [List.map_cons, List.mem_cons, not_or] at hk
    unfold mapInsert
    split_ifs with h1 h2
    · exact List.Perm.refl _
    · exact absurd h2 hk.1
    · exact ((ih hk.2).cons e).trans (List.Perm.swap (k, v) e rest)

theorem mapInsert_sorted {κ ν : Type} [LinearOrder κ] (k : κ) (v : ν) (m : List (κ × ν))
    (hm : (m.map Prod.fst).Pairwise (fun a b => a < b)) :
    ((mapInsert k v m).map Prod.fst).Pairwise (fun a b => a < b) := by
  induction m with
  | nil => simp [mapInsert]
  | cons e rest ih =>
    simp only [List.map_cons, List.pairwise_cons] at hm
    unfold mapInsert
    split_ifs with h1 h2
    · simp only [List.map_cons, List.pairwise_cons, List.mem_cons]
      refine ⟨?_, hm.1, hm.2⟩
      intro a ha
      rcases ha with ha | ha
      · rw [ha]; exact h1
      · exact lt_trans h1 (hm.1 a ha)
    · simp only [List.map_cons, List.pairwise_cons]
      exact hm
    · simp only [List.map_cons, List.pairwise_cons]
      refine ⟨?_, ih hm.2⟩
      intro a ha
      rcases mem_keys_mapInsert k v rest a ha with h | h
      · rw [h]
        exact lt_of_le_of_ne (not_lt.mp h1) (fun c => h2 c.symm)
      · exact hm.1 a h

theorem mapInsert_present {κ ν : Type} [LinearOrder κ] (k : κ) (v : ν) (m : List (κ × ν))
    (hm : (m.map Prod.fst).Pairwise (fun a b => a < b)) (hk : k ∈ m.map Prod.fst) :
    mapInsert k v m = m := by
  induction m with
  | nil => simp at hk
  | cons e rest ih =>
    simp only [List.map_cons, List.pairwise_cons] at hm
    simp only [List.map_cons, List.mem_cons] at hk
    unfold mapInsert
    rcases hk with hk | hk
    · simp [hk]
    · have hlt : e.1 < k := hm.1 k hk
      rw [if_neg (not_lt.mpr (le_of_lt hlt)), if_neg (ne_of_gt hlt), ih hm.2 hk]

theorem filterMap_get_rangeFrom {α : Type} (xs : List α) :
    ∀ (k a : Nat), a + k ≤ xs.length →
      (List.range' a k).filterMap xs.get? = (xs.drop a).take k := by
  intro k
  induction k with
  | zero =>
    intro a _
    simp
  | succ k ih =>
    intro a ha
    have hlt : a < xs.length := by omega
    rw [List.range'_succ, List.filterMap_cons, List.get?_eq_get hlt, ih (a + 1) (by omega),
      List.drop_eq_getElem_cons hlt, List.take_succ_cons]
    rfl

/-- C1: for `THRESHOLD = T ≥ 1` and a container of more than `2 * T` elements,
`sendList` writes `{`, the first `T` elements joined by commas, `,...,`, the
last `T` elements joined by commas, and `}`; it renders the indices
`0 .. T-1`, jumps once to index `n - T`, renders `n-T .. n-1`, and no index
twice. -/
theorem sendList_elides_middle {α : Type} (fuel T : Nat) (render : α → String)
    (xs : List α) (os : String) (hT : 1 ≤ T) (hn : 2 * T < xs.length)
    (hf : xs.length < fuel) :
    sendList fuel T render xs os = .ok
        (os ++ "\x7b" ++ ",".intercalate ((xs.take T).map render) ++ ",...,"
          ++ ",".intercalate ((xs.drop (xs.length - T)).map render) ++ "\x7d")
      ∧ ∃ st, sendListRun fuel T render xs os = .ok st
          ∧ st.log = (List.range T).map Event.deref ++ [Event.jump (xs.length - T)]
              ++ (List.range' (xs.length - T) T).map Event.deref
          ∧ st.log.Nodup := by
  have hrun := sendListRun_elided fuel T render xs os hT hn (by omega)
  refine ⟨?_, _, hrun, rfl, elided_log_nodup T xs.length hn⟩
  rw [sendList, hrun]
  rfl

/-- Witness of C1: the integers `0 .. 99` with `THRESHOLD = 10`. -/
theorem sendList_elides_middle_witness :
    sendList 101 10 (fun z : Int => toString z) ((List.range 100).map Int.ofNat) ""
      = .ok "\x7b0,1,2,3,4,5,6,7,8,9,...,90,91,92,93,94,95,96,97,98,99\x7d" :=
  (sendList_elides_middle 101 10 (fun z : Int => toString z)
    ((List.range 100).map Int.ofNat) "" (by decide) (by decide) (by decide)).1.trans
    (by rfl)

/-- C2: for a container of `n` elements with `0 < n ≤ 2 * T`, `sendList`
writes `{`, all the elements in traversal order joined by single commas, and
`}`; it renders the indices `0 .. n-1` once each and never takes the elision
branch. -/
theorem sendList_prints_all {α : Type} (fuel T : Nat) (render : α → String)
    (xs : List α) (os : String) (_hpos : 0 < xs.length) (hn : xs.length ≤ 2 * T)
    (hf : xs.length < fuel) :
    sendList fuel T render xs os = .ok (os ++ "\x7b" ++ ",".intercalate (xs.map render) ++ "\x7d")
      ∧ ∃ st, sendListRun fuel T render xs os = .ok st
          ∧ st.log = (List.range xs.length).map Event.deref
          ∧ ∀ j, Event.jump j ∉ st.log := by
  have hrun := sendListRun_all fuel T render xs os hn hf
  refine ⟨?_, _, hrun, rfl, ?_⟩
  · rw [sendList, hrun]
    rfl
  · intro j hj
    simp at hj

/-- Witness of C2: `{1,2,3}` with `THRESHOLD = 10`. -/
theorem sendList_prints_all_witness :
    sendList 4 10 (fun z : Int => toString z) [1, 2, 3] "" = .ok "\x7b1,2,3\x7d" :=
  (sendList_prints_all 4 10 (fun z : Int => toString z) [1, 2, 3] "" (by decide)
    (by decide) (by decide)).1.trans (by rfl)

/-- C3: for an empty container and every `THRESHOLD`, `sendList` and
`sendMap` both write exactly `{}` and touch no element. -/
theorem sendList_sendMap_empty {α κ ν : Type} (fuel T : Nat) (render : α → String)
    (renderK : κ → String) (renderV : ν → String) (os : String) (hf : 0 < fuel) :
    sendList fuel T render [] os = .ok (os ++ "\x7b\x7d")
      ∧ sendMap fuel T renderK renderV [] os = .ok (os ++ "\x7b\x7d")
      ∧ (sendListRun fuel T render [] os).map LoopState.log = .ok []
      ∧ (sendMapRun fuel T renderK renderV [] os).map LoopState.log = .ok [] := by
  obtain ⟨f, rfl⟩ : ∃ f, fuel = f + 1 := ⟨fuel - 1, by omega⟩
  have hs : ∀ os : String, os ++ "\x7b" ++ "\x7d" = os ++ "\x7b\x7d" := by
    intro os
    rw [String.append_assoc]
    rfl
  refine ⟨?_, ?_, ?_, ?_⟩ <;>
    simp [sendList, sendMap, sendMapRun, sendMapLoop, sendListRun, sendListLoop, Except.map,
      bind, Except.bind, pure, Except.pure, hs]

/-- Witness of C3: the empty container with `THRESHOLD = 0` and with
`THRESHOLD = 10`. -/
theorem sendList_sendMap_empty_witness :
    sendList 1 0 (fun z : Int => toString z) [] "" = .ok "\x7b\x7d"
      ∧ sendMap 1 10 (fun z : Int => toString z) (fun z : Int => toString z) [] ""
          = .ok "\x7b\x7d" :=
  ⟨(sendList_sendMap_empty 1 0 (fun z : Int => toString z) (fun z : Int => toString z)
      (fun z : Int => toString z) "" (by decide)).1,
   (sendList_sendMap_empty 1 10 (fun z : Int => toString z) (fun z : Int => toString z)
      (fun z : Int => toString z) "" (by decide)).2.1⟩

/-- C4, refuted as stated: reading the token `abc` into the vector `[1, 2]`
of integers sets the failed state and still appends an element, `0`. -/
theorem inVector_failed_parse_still_appends :
    (inVector extractInt 0 ⟨['a', 'b', 'c'], false⟩ [1, 2]).1.failbit = true
      ∧ (inVector extractInt 0 ⟨['a', 'b', 'c'], false⟩ [1, 2]).2 = [1, 2, 0]
      ∧ (inVector extractInt 0 ⟨['a', 'b', 'c'], false⟩ [1, 2]).2 ≠ [1, 2] := by
  decide

/-- C4, amended: when the next field of the input has no digit (after the
white space and an optional sign), `operator>>` into a vector, list or deque
of integers leaves the stream in the failed state and appends exactly one
element, `0`, after the unchanged previous elements. -/
theorem in_failed_parse_appends_zero (is : IStream) (c : List Int)
    (h : (takeSign (is.buf.dropWhile isSpace)).2.takeWhile Char.isDigit = []) :
    ((inVector extractInt 0 is c).1.failbit = true ∧ (inVector extractInt 0 is c).2 = c ++ [0])
      ∧ ((inList extractInt 0 is c).1.failbit = true ∧ (inList extractInt 0 is c).2 = c ++ [0])
      ∧ ((inDeque extractInt 0 is c).1.failbit = true
          ∧ (inDeque extractInt 0 is c).2 = c ++ [0]) := by
  have key : (extractInt is 0).1.failbit = true ∧ (extractInt is 0).2 = 0 := by
    rcases extractInt_no_digits is 0 h with hk | hk
    · exact hk
    · exact hk
  simp only [inVector, inList, inDeque, key.1, key.2, and_self]

/-- Witness of the amended C4: the token `abc` read into `[1, 2]`. -/
theorem in_failed_parse_appends_zero_witness :
    (inVector extractInt 0 ⟨['a', 'b', 'c'], false⟩ [1, 2]).1.failbit = true
      ∧ (inVector extractInt 0 ⟨['a', 'b', 'c'], false⟩ [1, 2]).2 = [1, 2] ++ [0] :=
  (in_failed_parse_appends_zero ⟨['a', 'b', 'c'], false⟩ [1, 2] (by decide)).1

/-- C5: when `is >> new_item` succeeds with the value `v`, leaving the stream
`is1`, `operator>>` into a vector (likewise a list and a deque) `c` returns
`is1` and `c` with the one element `v` appended at the end. -/
theorem in_appends_parsed_value {α : Type} (extract : IStream → α → IStream × α) (init : α)
    (is is1 : IStream) (c : List α) (v : α) (h : extract is init = (is1, v))
    (_hok : is1.failbit = false) :
    inVector extract init is c = (is1, c ++ [v])
      ∧ inList extract init is c = (is1, c ++ [v])
      ∧ inDeque extract init is c = (is1, c ++ [v])
      ∧ (inVector extract init is c).2.length = c.length + 1
      ∧ (inVector extract init is c).2.take c.length = c := by
  simp [inVector, inList, inDeque, h]

/-- Witness of C5: reading `42` into an empty vector of integers gives `[42]`. -/
theorem in_appends_parsed_value_witness :
    inVector extractInt 0 ⟨['4', '2'], false⟩ [] = (⟨[], false⟩, [42]) :=
  (in_appends_parsed_value extractInt 0 ⟨['4', '2'], false⟩ ⟨[], false⟩ [] 42
    (by decide) (by decide)).1

/-- C6, on the code: with `THRESHOLD = 0` every non-empty container makes
`sendList` take the elision branch at once, leave the cursor at `cend()` and
dereference it. -/
theorem sendList_threshold_zero_derefs_end {α : Type} (fuel : Nat) (render : α → String)
    (x : α) (xs : List α) (os : String) :
    sendList (fuel + 1) 0 render (x :: xs) os = .error .derefEnd := by
  rw [sendList, sendListRun_threshold_zero]
  rfl

/-- C7: for `THRESHOLD ≥ 1`, `sendMap` on the entries of an associative
container runs exactly as `sendList` on the same entries with each entry
rendered as its key, `:`, its value: same text, same cursor events; and it
does write a body. -/
theorem sendMap_refines_sendList {κ ν : Type} (fuel T : Nat) (renderK : κ → String)
    (renderV : ν → String) (m : List (κ × ν)) (os : String) (hT : 1 ≤ T)
    (hf : m.length < fuel) :
    sendMap fuel T renderK renderV m os
        = sendList fuel T (fun e => renderK e.1 ++ ":" ++ renderV e.2) m os
      ∧ sendMapRun fuel T renderK renderV m os
        = sendListRun fuel T (fun e => renderK e.1 ++ ":" ++ renderV e.2) m os
      ∧ ∃ body, sendMap fuel T renderK renderV m os = .ok (os ++ body) := by
  refine ⟨sendMap_eq _ _ _ _ _ _, sendMapRun_eq _ _ _ _ _ _, ?_⟩
  obtain ⟨body, hb⟩ :=
    sendList_total fuel T (fun e : κ × ν => renderK e.1 ++ ":" ++ renderV e.2) m hT hf
  exact ⟨body, by rw [sendMap_eq, hb os]⟩

/-- Witness of C7: the map `{1:10, 2:20, 3:30}` with `THRESHOLD = 1`. -/
theorem sendMap_refines_sendList_witness :
    sendMap 4 1 (fun z : Int => toString z) (fun z : Int => toString z)
        [(1, 10), (2, 20), (3, 30)] ""
      = sendList 4 1 (fun e : Int × Int => toString e.1 ++ ":" ++ toString e.2)
        [(1, 10), (2, 20), (3, 30)] ""
    ∧ sendMap 4 1 (fun z : Int => toString z) (fun z : Int => toString z)
        [(1, 10), (2, 20), (3, 30)] "" = .ok "\x7b1:10,...,3:30\x7d" :=
  ⟨(sendMap_refines_sendList 4 1 (fun z : Int => toString z) (fun z : Int => toString z)
      [(1, 10), (2, 20), (3, 30)] "" (by decide) (by decide)).1, by rfl⟩

/-- C8: `sendHeader` with the label `t` writes `(`, `t`, `:`, the identity,
`)[`, the element count in decimal, `]`, for a container of any size; and
`operator<<` on a list, deque, vector, set or multiset writes that header
with its own label, then the body of `sendList`, and nothing else.  For
`THRESHOLD ≥ 1` the body exists. -/
theorem out_is_header_then_body {α : Type} (fuel T : Nat) (addr : String)
    (render : α → String) (xs : List α) (os : String) :
    (∀ t, sendHeader os addr xs t
        = os ++ "(" ++ t ++ ":" ++ addr ++ ")[" ++ toString xs.length ++ "]")
      ∧ outList fuel T addr render xs os = (sendList fuel T render xs "").map
          (fun body => os ++ "(" ++ "list" ++ ":" ++ addr ++ ")[" ++ toString xs.length ++ "]"
            ++ body)
      ∧ outVector fuel T addr render xs os = (sendList fuel T render xs "").map
          (fun body => os ++ "(" ++ "vector" ++ ":" ++ addr ++ ")[" ++ toString xs.length ++ "]"
            ++ body)
      ∧ outDeque fuel T addr render xs os = (sendList fuel T render xs "").map
          (fun body => os ++ "(" ++ "deque" ++ ":" ++ addr ++ ")[" ++ toString xs.length ++ "]"
            ++ body)
      ∧ outSet fuel T addr render xs os = (sendList fuel T render xs "").map
          (fun body => os ++ "(" ++ "set" ++ ":" ++ addr ++ ")[" ++ toString xs.length ++ "]"
            ++ body)
      ∧ outMultiset fuel T addr render xs os = (sendList fuel T render xs "").map
          (fun body => os ++ "(" ++ "multiset" ++ ":" ++ addr ++ ")[" ++ toString xs.length
            ++ "]" ++ body)
      ∧ (1 ≤ T → xs.length < fuel → ∃ body, sendList fuel T render xs "" = .ok body) := by
  refine ⟨fun t => rfl, ?_, ?_, ?_, ?_, ?_, ?_⟩
  · rw [outList, sendList_prefix]; rfl
  · rw [outVector, sendList_prefix]; rfl
  · rw [outDeque, sendList_prefix]; rfl
  · rw [outSet, sendList_prefix]; rfl
  · rw [outMultiset, sendList_prefix]; rfl
  · intro hT hf
    obtain ⟨body, hb⟩ := sendList_total fuel T render xs hT hf
    exact ⟨"" ++ body, hb ""⟩

/-- Witness of C8: the vector `{1,2,3}` at address `0x7ffe` and the empty set. -/
theorem out_is_header_then_body_witness :
    outVector 4 10 "0x7ffe" (fun z : Int => toString z) [1, 2, 3] ""
        = .ok "(vector:0x7ffe)[3]\x7b1,2,3\x7d"
      ∧ outSet 1 10 "0x7ffe" (fun z : Int => toString z) [] "" = .ok "(set:0x7ffe)[0]\x7b\x7d"
      ∧ ∃ body, sendList 4 10 (fun z : Int => toString z) [1, 2, 3] "" = .ok body :=
  ⟨(out_is_header_then_body 4 10 "0x7ffe" (fun z : Int => toString z) [1, 2, 3]
      "").2.2.1.trans (by rfl),
   (out_is_header_then_body 1 10 "0x7ffe" (fun z : Int => toString z) [] "").2.2.2.2.1.trans
      (by rfl),
   (out_is_header_then_body 4 10 "0x7ffe" (fun z : Int => toString z) [1, 2, 3]
      "").2.2.2.2.2.2 (by decide) (by decide)⟩

/-- C9: for a non-empty stack, `operator<<` writes the header and then
exactly `{top:`, the top element, `}`; the text after the header is the same
for every stack with the same top element. -/
theorem outStack_shows_top {α : Type} (addr : String) (render : α → String) (s : List α)
    (os : String) (hs : s ≠ []) :
    outStack addr render s os
        = .ok (sendHeader os addr s "stack" ++ "\x7btop:" ++ render (s.getLast hs) ++ "\x7d")
      ∧ ∀ (addr2 : String) (s2 : List α) (os2 : String) (hs2 : s2 ≠ []),
          s2.getLast hs2 = s.getLast hs →
          outStack addr2 render s2 os2
            = .ok (sendHeader os2 addr2 s2 "stack" ++ "\x7btop:" ++ render (s.getLast hs)
                ++ "\x7d") := by
  have key : ∀ (a : String) (l : List α) (o : String) (hl : l ≠ []),
      outStack a render l o
        = .ok (sendHeader o a l "stack" ++ "\x7btop:" ++ render (l.getLast hl) ++ "\x7d") := by
    intro a l o hl
    simp only [outStack, top, List.getLast?_eq_getLast l hl, bind, Except.bind, pure,
      Except.pure]
  refine ⟨key addr s os hs, ?_⟩
  intro addr2 s2 os2 hs2 heq
  rw [key addr2 s2 os2 hs2, heq]

/-- Witness of C9: two stacks whose top is `5`. -/
theorem outStack_shows_top_witness :
    outStack "0x7ffe" (fun z : Int => toString z) [1, 2, 5] ""
        = .ok "(stack:0x7ffe)[3]\x7btop:5\x7d"
      ∧ outStack "0x7ffe" (fun z : Int => toString z) [5] ""
        = .ok "(stack:0x7ffe)[1]\x7btop:5\x7d" :=
  ⟨(outStack_shows_top "0x7ffe" (fun z : Int => toString z) [1, 2, 5] ""
      (by decide)).1.trans (by rfl),
   ((outStack_shows_top "0x7ffe" (fun z : Int => toString z) [1, 2, 5] ""
      (by decide)).2 "0x7ffe" [5] "" (by decide) (by rfl)).trans (by rfl)⟩

/-- C10: for a non-empty queue, `operator<<` writes the header with the label
`queue` and the size, then exactly `{front:`, the oldest element, `,back:`,
the newest element, `}`; in a queue of one element both are that element. -/
theorem outQueue_shows_front_back {α : Type} (addr : String) (render : α → String)
    (q : List α) (os : String) (hq : q ≠ []) :
    outQueue addr render q os
        = .ok (os ++ "(" ++ "queue" ++ ":" ++ addr ++ ")[" ++ toString q.length ++ "]"
            ++ "\x7bfront:" ++ render (q.head hq) ++ ",back:" ++ render (q.getLast hq) ++ "\x7d")
      ∧ (q.length = 1 → q.head hq = q.getLast hq) := by
  constructor
  · simp only [outQueue, front, back, List.head?_eq_head hq, List.getLast?_eq_getLast q hq,
      bind, Except.bind, pure, Except.pure, sendHeader]
  · intro h1
    match q, hq, h1 with
    | [x], _, _ => rfl

/-- Witness of C10: the queue `1, 2, 3` (oldest first) and the queue of the
single element `7`. -/
theorem outQueue_shows_front_back_witness :
    outQueue "0x7ffe" (fun z : Int => toString z) [1, 2, 3] ""
        = .ok "(queue:0x7ffe)[3]\x7bfront:1,back:3\x7d"
      ∧ outQueue "0x7ffe" (fun z : Int => toString z) [7] ""
        = .ok "(queue:0x7ffe)[1]\x7bfront:7,back:7\x7d" :=
  ⟨(outQueue_shows_front_back "0x7ffe" (fun z : Int => toString z) [1, 2, 3] ""
      (by decide)).1.trans (by rfl),
   (outQueue_shows_front_back "0x7ffe" (fun z : Int => toString z) [7] ""
      (by decide)).1.trans (by rfl)⟩


/-- C11: the body is lossy.  Two containers longer than `2 * T` that agree on
their first `T` and on their last `T` elements get the same body from
`sendList`, whatever lies between and whatever their sizes; and for every
`T ≥ 1` there are two different containers with the same body. -/
theorem sendList_body_is_lossy {α : Type} (fuel T : Nat) (render : α → String)
    (xs ys : List α) (os : String) (hT : 1 ≤ T) (hx : 2 * T < xs.length)
    (hy : 2 * T < ys.length) (hhead : xs.take T = ys.take T)
    (htail : xs.drop (xs.length - T) = ys.drop (ys.length - T)) (hf : 2 * T < fuel) :
    (∃ body, sendList fuel T render xs os = .ok (os ++ body)
        ∧ sendList fuel T render ys os = .ok (os ++ body))
      ∧ ∃ a b : List Nat, a ≠ b ∧ ∃ body,
          sendList fuel T (fun n : Nat => toString n) a os = .ok (os ++ body)
            ∧ sendList fuel T (fun n : Nat => toString n) b os = .ok (os ++ body) := by
  refine ⟨sendList_agree fuel T render xs ys os hT hx hy hhead htail hf, ?_⟩
  refine ⟨List.replicate T 0 ++ 1 :: List.replicate T 0,
    List.replicate T 0 ++ 2 :: List.replicate T 0, ?_, ?_⟩
  · intro h
    have h2 := List.append_cancel_left h
    simp at h2
  · have hlen : ∀ c : Nat, (List.replicate T 0 ++ c :: List.replicate T 0).length
        = 2 * T + 1 := by
      intro c
      simp
      omega
    have htake : ∀ c : Nat, (List.replicate T 0 ++ c :: List.replicate T 0).take T
        = List.replicate T 0 := by
      intro c
      exact List.take_left' (by simp)
    have hdrop : ∀ c : Nat, (List.replicate T 0 ++ c :: List.replicate T 0).drop
        ((List.replicate T 0 ++ c :: List.replicate T 0).length - T)
        = List.replicate T 0 := by
      intro c
      have h1 : (List.replicate T 0 ++ c :: List.replicate T 0).length - T = T + 1 := by
        rw [hlen c]
        omega
      have h2 := @List.drop_append _ (List.replicate T 0) (c :: List.replicate T 0) 1
      rw [h1]
      simpa using h2
    apply sendList_agree fuel T _ _ _ os hT (by rw [hlen]; omega) (by rw [hlen]; omega) _ _ hf
    · rw [htake, htake]
    · rw [hdrop, hdrop]

/-- Witness of C11: with `THRESHOLD = 1`, `0,1,2` and `0,7,8,2` both give
the body `{0,...,2}`. -/
theorem sendList_body_is_lossy_witness :
    ∃ body, sendList 4 1 (fun z : Int => toString z) [0, 1, 2] "" = .ok ("" ++ body)
      ∧ sendList 4 1 (fun z : Int => toString z) [0, 7, 8, 2] "" = .ok ("" ++ body) :=
  (sendList_body_is_lossy 4 1 (fun z : Int => toString z) [0, 1, 2] [0, 7, 8, 2] ""
    (by decide) (by decide) (by decide) (by decide) (by decide) (by decide)).1

/-- C12: for `THRESHOLD = T ≥ 1` no cursor operation of `sendList` leaves the
range: the run ends without a fault; the elision branch runs only when
`n > 2 * T`, its retreats from `cend()` all succeed and leave the cursor on
index `n - T`; every rendered index is below `n`; and at every rendered index
the peek forward succeeds without passing `cend()` and the step back returns
to the same index. -/
theorem sendList_cursor_in_range {α : Type} (fuel T : Nat) (render : α → String)
    (xs : List α) (os : String) (hT : 1 ≤ T) (hf : xs.length < fuel) :
    ∃ st, sendListRun fuel T render xs os = .ok st
      ∧ (∀ j ∈ jumps st.log, 2 * T < xs.length ∧ j = xs.length - T
          ∧ ∀ k, k ≤ T → retreat k xs.length = .ok (xs.length - k))
      ∧ (∀ i ∈ rendered st.log, i < xs.length ∧ (∃ x, deref xs i = .ok x)
          ∧ inc xs.length i = .ok (i + 1) ∧ i + 1 ≤ xs.length ∧ dec (i + 1) = .ok i) := by
  rcases Nat.lt_or_ge (2 * T) xs.length with hn | hn
  · refine ⟨_, sendListRun_elided fuel T render xs os hT hn (by omega), ?_, ?_⟩
    · intro j hj
      simp only [jumps_elided, List.mem_singleton] at hj
      exact ⟨hn, hj, fun k hk => retreat_eq k xs.length (by omega)⟩
    · intro i hi
      simp only [rendered_elided, List.mem_append, List.mem_range, List.mem_range'_1] at hi
      have hlt : i < xs.length := by omega
      exact ⟨hlt, cursor_ops_in_range xs i hlt⟩
  · refine ⟨_, sendListRun_all fuel T render xs os hn hf, ?_, ?_⟩
    · intro j hj
      simp [jumps_map_deref] at hj
    · intro i hi
      simp only [rendered_map_deref, List.mem_range] at hi
      exact ⟨hi, cursor_ops_in_range xs i hi⟩

/-- Witness of C12: five elements with `THRESHOLD = 2`. -/
theorem sendList_cursor_in_range_witness :
    ∃ st, sendListRun 6 2 (fun z : Int => toString z) [0, 1, 2, 3, 4] "" = .ok st
      ∧ (∀ j ∈ jumps st.log, 2 * 2 < [(0 : Int), 1, 2, 3, 4].length
          ∧ j = [(0 : Int), 1, 2, 3, 4].length - 2
          ∧ ∀ k, k ≤ 2 → retreat k [(0 : Int), 1, 2, 3, 4].length
              = .ok ([(0 : Int), 1, 2, 3, 4].length - k))
      ∧ (∀ i ∈ rendered st.log, i < [(0 : Int), 1, 2, 3, 4].length
          ∧ (∃ x, deref [(0 : Int), 1, 2, 3, 4] i = .ok x)
          ∧ inc [(0 : Int), 1, 2, 3, 4].length i = .ok (i + 1)
          ∧ i + 1 ≤ [(0 : Int), 1, 2, 3, 4].length ∧ dec (i + 1) = .ok i) :=
  sendList_cursor_in_range 6 2 (fun z : Int => toString z) [0, 1, 2, 3, 4] "" (by decide)
    (by decide)

/-- C14: for `THRESHOLD = T ≥ 1` the loop of `sendList` ends, with the cursor
at `cend()`, after rendering exactly `min n (2 * T)` elements: all `n` when
`n ≤ 2 * T`, the `T` leading and the `T` trailing ones when `n > 2 * T`, and
the text written is the rendering of exactly those elements.  The elision
branch runs at most once, the rendered indices increase strictly, and a jump
goes forward to `n - T > T`. -/
theorem sendList_renders_min {α : Type} (fuel T : Nat) (render : α → String)
    (xs : List α) (os : String) (hT : 1 ≤ T) (hf : min xs.length (2 * T) < fuel) :
    ∃ st, sendListRun fuel T render xs os = .ok st
      ∧ st.it = xs.length
      ∧ (rendered st.log).length = min xs.length (2 * T)
      ∧ st.current = min xs.length (2 * T)
      ∧ (xs.length ≤ 2 * T → rendered st.log = List.range xs.length)
      ∧ (2 * T < xs.length →
          rendered st.log = List.range T ++ List.range' (xs.length - T) T)
      ∧ (jumps st.log).length ≤ 1
      ∧ (rendered st.log).Pairwise (fun a b => a < b)
      ∧ (∀ j ∈ jumps st.log, j = xs.length - T ∧ T < j)
      ∧ (xs.length ≤ 2 * T →
          st.os = os ++ "\x7b" ++ ",".intercalate (xs.map render) ++ "\x7d"
            ∧ (rendered st.log).filterMap xs.get? = xs)
      ∧ (2 * T < xs.length →
          st.os = os ++ "\x7b" ++ ",".intercalate ((xs.take T).map render) ++ ",...,"
                    ++ ",".intercalate ((xs.drop (xs.length - T)).map render) ++ "\x7d"
            ∧ (rendered st.log).filterMap xs.get? = xs.take T ++ xs.drop (xs.length - T)
            ∧ (xs.take T).length = T ∧ (xs.drop (xs.length - T)).length = T) := by
  rcases Nat.lt_or_ge (2 * T) xs.length with hn | hn
  · have hmin : min xs.length (2 * T) = 2 * T := by omega
    refine ⟨_, sendListRun_elided fuel T render xs os hT hn (by omega), rfl, ?_, ?_, ?_, ?_,
      ?_, ?_, ?_, ?_, ?_⟩
    · rw [rendered_elided, hmin]
      simp
      omega
    · rw [hmin]
    · intro h
      omega
    · intro _
      rw [rendered_elided]
    · rw [jumps_elided]
      simp
    · rw [rendered_elided, List.pairwise_append]
      refine ⟨List.pairwise_lt_range T, List.pairwise_lt_range' (xs.length - T) T, ?_⟩
      intro a ha b hb
      simp only [List.mem_range, List.mem_range'_1] at ha hb
      omega
    · intro j hj
      simp only [jumps_elided, List.mem_singleton] at hj
      omega
    · intro h
      omega
    · intro _
      refine ⟨rfl, ?_, ?_, ?_⟩
      · rw [rendered_elided, List.filterMap_append, List.range_eq_range',
          filterMap_get_rangeFrom xs T 0 (by omega),
          filterMap_get_rangeFrom xs T (xs.length - T) (by omega), List.drop_zero]
        congr 1
        exact List.take_of_length_le (by rw [List.length_drop]; omega)
      · rw [List.length_take]
        omega
      · rw [List.length_drop]
        omega
  · have hmin : min xs.length (2 * T) = xs.length := by omega
    refine ⟨_, sendListRun_all fuel T render xs os hn (by omega), rfl, ?_, ?_, ?_, ?_,
      ?_, ?_, ?_, ?_, ?_⟩
    · rw [rendered_map_deref, hmin]
      simp
    · rw [hmin]
    · intro _
      rw [rendered_map_deref]
    · intro h
      omega
    · rw [jumps_map_deref]
      simp
    · rw [rendered_map_deref]
      exact List.pairwise_lt_range xs.length
    · intro j hj
      simp [jumps_map_deref] at hj
    · intro _
      refine ⟨rfl, ?_⟩
      rw [rendered_map_deref, List.range_eq_range',
        filterMap_get_rangeFrom xs xs.length 0 (by omega), List.drop_zero]
      exact List.take_of_length_le (Nat.le_refl _)
    · intro h
      omega

/-- Witness of C14: the integers `0 .. 99` with `THRESHOLD = 10` and only 21
tests of the loop condition: the twenty elements `0 .. 9` and `90 .. 99` are
written. -/
theorem sendList_renders_min_witness :
    ∃ st, sendListRun 21 10 (fun z : Int => toString z) ((List.range 100).map Int.ofNat) ""
        = .ok st
      ∧ st.os = "\x7b0,1,2,3,4,5,6,7,8,9,...,90,91,92,93,94,95,96,97,98,99\x7d"
      ∧ (rendered st.log).length = min ((List.range 100).map Int.ofNat).length (2 * 10)
      ∧ st.current = min ((List.range 100).map Int.ofNat).length (2 * 10)
      ∧ (jumps st.log).length ≤ 1 :=
  (sendList_renders_min 21 10 (fun z : Int => toString z)
    ((List.range 100).map Int.ofNat) "" (by decide) (by decide)).imp
    (fun _ h => ⟨h.1, (h.2.2.2.2.2.2.2.2.2.2 (by decide)).1.trans (by rfl), h.2.2.1,
      h.2.2.2.1, h.2.2.2.2.2.2.1⟩)

/-- C15, refuted as stated: with `THRESHOLD = 1` and the elements `0, 1, 2`
the variant that decides the separator by the running index writes a comma
after the last element, and `sendList` does not. -/
theorem sendListByIndex_differs_when_truncated :
    sendListByIndex 4 1 (fun z : Int => toString z) [0, 1, 2] "" = .ok "\x7b0,...,2,\x7d"
      ∧ sendList 4 1 (fun z : Int => toString z) [0, 1, 2] "" = .ok "\x7b0,...,2\x7d"
      ∧ sendListByIndex 4 1 (fun z : Int => toString z) [0, 1, 2] ""
          ≠ sendList 4 1 (fun z : Int => toString z) [0, 1, 2] "" := by
  have h1 : sendListByIndex 4 1 (fun z : Int => toString z) [0, 1, 2] ""
      = .ok "\x7b0,...,2,\x7d" := by rfl
  have h2 : sendList 4 1 (fun z : Int => toString z) [0, 1, 2] ""
      = .ok "\x7b0,...,2\x7d" := by rfl
  refine ⟨h1, h2, ?_⟩
  rw [h1, h2]
  intro h
  injection h with h
  revert h
  decide

/-- C15, amended: for a container that is not truncated (`n ≤ 2 * T`) the
variant that decides the separator by the running index writes the same body
as `sendList`, all the elements joined by single commas between braces. -/
theorem sendListByIndex_eq_untruncated {α : Type} (fuel T : Nat) (render : α → String)
    (xs : List α) (os : String) (hn : xs.length ≤ 2 * T) (hf : xs.length < fuel) :
    sendListByIndex fuel T render xs os = sendList fuel T render xs os
      ∧ sendListByIndex fuel T render xs os
          = .ok (os ++ "\x7b" ++ ",".intercalate (xs.map render) ++ "\x7d") := by
  have hm : decide (xs.length > T * 2) = false := by simp; omega
  have hvar : sendListByIndex fuel T render xs os
      = .ok (os ++ "\x7b" ++ ",".intercalate (xs.map render) ++ "\x7d") := by
    unfold sendListByIndex
    simp only [hm, bind, Except.bind, pure, Except.pure]
    rw [sendListByIndexLoop_eq T render xs xs.length fuel _ rfl rfl (by simp) hf,
      sendListLoop_plain T render xs xs.length fuel _ rfl (by simp) hf]
    simp
  refine ⟨?_, hvar⟩
  rw [hvar, sendList, sendListRun_all fuel T render xs os hn hf]
  rfl

/-- Witness of the amended C15: `{1,2,3}` with `THRESHOLD = 10`. -/
theorem sendListByIndex_eq_untruncated_witness :
    sendListByIndex 4 10 (fun z : Int => toString z) [1, 2, 3] ""
      = sendList 4 10 (fun z : Int => toString z) [1, 2, 3] "" :=
  (sendListByIndex_eq_untruncated 4 10 (fun z : Int => toString z) [1, 2, 3] "" (by decide)
    (by decide)).1

/-- C16: when the key `k` and then the value `v` are extracted, in that order,
`operator>>` into a map returns the stream after both reads and the result of
the map's `insert` of `(k, v)`: with `k` absent the entries are those of `m`
and `(k, v)`, still in key order; with `k` present the map is unchanged, the
stream being past both tokens all the same. -/
theorem inMap_inserts {κ ν : Type} [LinearOrder κ] (extractK : IStream → κ → IStream × κ)
    (extractV : IStream → ν → IStream × ν) (initK : κ) (initV : ν) (is is1 is2 : IStream)
    (m : List (κ × ν)) (k : κ) (v : ν) (hk : extractK is initK = (is1, k))
    (hv : extractV is1 initV = (is2, v))
    (hm : (m.map Prod.fst).Pairwise (fun a b => a < b)) :
    inMap extractK extractV initK initV is m = (is2, mapInsert k v m)
      ∧ (k ∉ m.map Prod.fst →
          (inMap extractK extractV initK initV is m).2.Perm ((k, v) :: m)
            ∧ ((inMap extractK extractV initK initV is m).2.map Prod.fst).Pairwise
                (fun a b => a < b))
      ∧ (k ∈ m.map Prod.fst → inMap extractK extractV initK initV is m = (is2, m)) := by
  have h : inMap extractK extractV initK initV is m = (is2, mapInsert k v m) := by
    simp only [inMap, hk, hv]
  refine ⟨h, ?_, ?_⟩
  · intro habs
    rw [h]
    exact ⟨mapInsert_perm k v m habs, mapInsert_sorted k v m hm⟩
  · intro hpres
    rw [h, mapInsert_present k v m hm hpres]

/-- Witness of C16: `2 7` read into the map `{1:5, 3:9}` adds the entry `2:7`;
`1 10` read into it changes nothing and consumes both tokens. -/
theorem inMap_inserts_witness :
    inMap extractInt extractInt 0 0 ⟨['2', ' ', '7'], false⟩ [(1, 5), (3, 9)]
        = (⟨[], false⟩, [(1, 5), (2, 7), (3, 9)])
      ∧ inMap extractInt extractInt 0 0 ⟨['1', ' ', '1', '0'], false⟩ [(1, 5), (3, 9)]
        = (⟨[], false⟩, [(1, 5), (3, 9)]) :=
  ⟨(inMap_inserts extractInt extractInt 0 0 ⟨['2', ' ', '7'], false⟩ ⟨[' ', '7'], false⟩
      ⟨[], false⟩ [(1, 5), (3, 9)] 2 7 (by decide) (by decide) (by decide)).1,
   (inMap_inserts extractInt extractInt 0 0 ⟨['1', ' ', '1', '0'], false⟩
      ⟨[' ', '1', '0'], false⟩ ⟨[], false⟩ [(1, 5), (3, 9)] 1 10 (by decide) (by decide)
      (by decide)).2.2 (by decide)⟩

end Iostl
